import Mathlib

/-!
Shallow embedding of the Talk signaling server
(src/signaling-server/index.js) and verification of the frozen claims.

The server is a single-threaded socket.io event loop.  We model it as a
state machine: `ServerState` holds the global room table (`rooms`, a
JS-object-like insertion-ordered association list), the per-connection
closure state (`Conn`: the mutable `currentRoomID` variable of each
connection handler, the set of socket.io rooms the socket has joined,
and whether the socket is still connected), the pending `setTimeout`
callbacks (`timers`; each callback closes over the arming socket's
`currentRoomID` variable and is modelled by reading that variable at
fire time), and a log of every emitted message with its resolved
recipient set.  socket.io semantics captured here: every connected
socket is a member of the "personal room" named by its own id, so
`io.to(x)` reaches the socket whose id is `x` as well as every socket
that has joined a room named `x`; broadcasts resolve their recipients
at emit time; `socket.leave` only happens where the source calls it.

`ROOM_SIZE` is the configured capacity constant (2 in the source); all
definitions are parametrized by it (written `RS`) and instantiated at 2
in concrete traces, mirroring the source constant.
-/

namespace Talk

abbrev SocketId := String
abbrev RoomId := String

/-- JS-object lookup on an insertion-ordered association list. -/
def alGet {α : Type} (k : String) : List (String × α) → Option α
  | [] => none
  | (k1, v) :: rest => if k1 = k then some v else alGet k rest

/-- JS-object assignment: replace the value at an existing key in place
(JS objects keep the original insertion position), otherwise append. -/
def alSet {α : Type} (k : String) (v : α) : List (String × α) → List (String × α)
  | [] => [(k, v)]
  | (k1, v1) :: rest => if k1 = k then (k, v) :: rest else (k1, v1) :: alSet k v rest

/-- JS `delete obj[k]`. -/
def alErase {α : Type} (k : String) : List (String × α) → List (String × α)
  | [] => []
  | (k1, v1) :: rest => if k1 = k then alErase k rest else (k1, v1) :: alErase k rest

/-- Boolean membership test, mirroring `Array.includes` / `Set.has`. -/
def strMem (x : String) : List String → Bool
  | [] => false
  | y :: ys => x == y || strMem x ys

/-- A room record: `{ participants: [], readyStates: {}, flags: {} }`.
Every room created by the source (index.js line 64) carries all three
fields; `flags` maps a flag target to the set of distinct accusers,
modelled as an insertion-ordered duplicate-free list. -/
structure Room where
  participants : List SocketId
  readyStates : List (SocketId × Bool)
  flags : List (SocketId × List SocketId)
deriving Repr, DecidableEq

/-- Per-connection state: the handler-closure variable `currentRoomID`
(index.js line 17), the socket.io rooms this socket has joined, and
whether the socket is still connected. -/
structure Conn where
  connected : Bool
  currentRoomID : Option RoomId
  joined : List RoomId
deriving Repr, DecidableEq

/-- Outbound message payloads, one constructor per `emit` in the source. -/
inductive Msg where
  | roomUpdate (participants readyCount : Nat)
  | startSession (roomID : RoomId) (peers : List SocketId) (duration : Nat)
  | sessionEnding (remaining : Nat)
  | sessionDissolved
  | participantRemoved (peerId : SocketId) (newPeers : List SocketId)
  | signalMsg (src : SocketId) (payload : String)
deriving Repr, DecidableEq

/-- Where an emit was addressed: `io.to(x)` (with `x` possibly the JS
`null` value of a cleared `currentRoomID` closure variable), or a
direct `socket.emit` to one connection. -/
inductive Dest where
  | room (rid : Option RoomId)
  | direct (sid : SocketId)
deriving Repr, DecidableEq

/-- One emitted message together with its recipients as resolved by the
socket.io adapter at emit time. -/
structure OutEvent where
  dest : Dest
  recipients : List SocketId
  msg : Msg
deriving Repr, DecidableEq

/-- The two `setTimeout` callbacks armed at session start
(index.js lines 108-118). -/
inductive TimerKind where
  | ending
  | dissolve
deriving Repr, DecidableEq

/-- A pending `setTimeout` callback; `armer` is the socket whose
handler closure (and hence whose `currentRoomID` variable) the callback
captured. -/
structure Timer where
  armer : SocketId
  kind : TimerKind
deriving Repr, DecidableEq

/-- Inbound events.  `joinQueue` carries the value `Date.now()` returns
during that handler invocation (millisecond wall clock, so distinct
events may carry equal values).  `fireTimer i` fires the i-th pending
timer; firing order and interleaving with other events is left free. -/
inductive Event where
  | connect (sid : SocketId)
  | joinQueue (sid : SocketId) (now : Nat)
  | toggleReady (sid : SocketId) (isReady : Bool)
  | flagParticipant (sid : SocketId) (targetId : SocketId)
  | signal (sid : SocketId) (toId : SocketId) (payload : String)
  | leaveRoomEv (sid : SocketId)
  | disconnect (sid : SocketId)
  | fireTimer (i : Nat)
deriving Repr, DecidableEq

structure ServerState where
  rooms : List (RoomId × Room)
  conns : List (SocketId × Conn)
  timers : List Timer
  log : List OutEvent
deriving Repr, DecidableEq

def initState : ServerState := ⟨[], [], [], []⟩

/-- The closure state of a socket; a socket that never connected has
the inert default. -/
def getConn (s : ServerState) (sid : SocketId) : Conn :=
  (alGet sid s.conns).getD ⟨false, none, []⟩

def setConn (s : ServerState) (sid : SocketId) (c : Conn) : ServerState :=
  { s with conns := alSet sid c s.conns }

/-- `Object.values(readyStates).filter(r => r).length`. -/
def readyCount (r : Room) : Nat := (r.readyStates.filter (fun p => p.2)).length

/-- Recipients of `io.to(target)`: every connected socket whose
personal room (its own id) or joined-room set matches `target`. -/
def roomRecipients (s : ServerState) (target : String) : List SocketId :=
  (s.conns.filter (fun p => p.2.connected && (p.1 == target || strMem target p.2.joined))).map Prod.fst

/-- `io.to(x).emit(m)`; `x = none` models `io.to(null)` after the
closure variable was cleared, which reaches no socket. -/
def emitRoom (s : ServerState) (orid : Option String) (m : Msg) : ServerState :=
  match orid with
  | none => { s with log := s.log ++ [⟨Dest.room none, [], m⟩] }
  | some rid => { s with log := s.log ++ [⟨Dest.room (some rid), roomRecipients s rid, m⟩] }

/-- `io.sockets.sockets.get(sid)?.emit(m)`: delivered only while the
target is connected (index.js lines 137-140). -/
def emitDirect (s : ServerState) (sid : SocketId) (m : Msg) : ServerState :=
  if (getConn s sid).connected then
    { s with log := s.log ++ [⟨Dest.direct sid, [sid], m⟩] }
  else s

/-- `const targetRoomID = id || currentRoomID` (index.js line 20). -/
def resolveTarget (idArg cur : Option RoomId) : Option RoomId :=
  match idArg with
  | some t => some t
  | none => cur

/-- The departed room record: participants filtered, readyStates entry
deleted, flags untouched (index.js lines 24-25). -/
def roomAfterLeave (sid : SocketId) (room : Room) : Room :=
  { room with participants := room.participants.filter (fun p => p != sid),
              readyStates := alErase sid room.readyStates }

/-- The `if (rooms[targetRoomID])` block of `leaveRoom` (index.js lines
23-42): mutate or delete the room and broadcast. -/
def leaveRoomUpdate (sid : SocketId) (target : RoomId) (s : ServerState) : ServerState :=
  match alGet target s.rooms with
  | none => s
  | some room =>
    if (roomAfterLeave sid room).participants.isEmpty then
      { s with rooms := alErase target s.rooms }
    else
      emitRoom
        (emitRoom { s with rooms := alSet target (roomAfterLeave sid room) s.rooms }
          (some target)
          (Msg.roomUpdate (roomAfterLeave sid room).participants.length
            (readyCount (roomAfterLeave sid room))))
        (some target)
        (Msg.participantRemoved sid (roomAfterLeave sid room).participants)

/-- The tail of `leaveRoom` (index.js lines 43-44): `socket.leave` and
the conditional reset of the `currentRoomID` closure variable. -/
def leaveRoomCore (sid : SocketId) (target : RoomId) (s : ServerState) : ServerState :=
  let s1 := leaveRoomUpdate sid target s
  setConn s1 sid
    { getConn s1 sid with
      joined := (getConn s1 sid).joined.filter (fun r => r != target),
      currentRoomID := if (getConn s1 sid).currentRoomID = some target then none
                       else (getConn s1 sid).currentRoomID }

/-- `leaveRoom` (index.js lines 19-45).  `idArg` is the optional `id`
argument; `id || currentRoomID` picks the explicit argument when
present.  Note: broadcasts happen before `socket.leave`, and `flags`
entries are not touched. -/
def leaveRoomFn (sid : SocketId) (idArg : Option RoomId) (s : ServerState) : ServerState :=
  match resolveTarget idArg (getConn s sid).currentRoomID with
  | none => s
  | some target => leaveRoomCore sid target s

/-- `for (const id in rooms)`: first room, in insertion order, with
space left that does not already contain the joiner (index.js 55-60). -/
def findRoom (RS : Nat) (sid : SocketId) : List (RoomId × Room) → Option RoomId
  | [] => none
  | (rid, room) :: rest =>
    if room.participants.length < RS && !(strMem sid room.participants) then some rid
    else findRoom RS sid rest

/-- `socket.join(roomID)`: add the room to the joined set if absent. -/
def joinedAfter (rid : RoomId) (j : List RoomId) : List RoomId :=
  if strMem rid j then j else j ++ [rid]

/-- `currentRoomID = roomID; socket.join(roomID)` (index.js 68-69). -/
def joinConnUpdate (sid : SocketId) (rid : RoomId) (s1 : ServerState) : ServerState :=
  setConn s1 sid
    { getConn s1 sid with
      currentRoomID := some rid,
      joined := joinedAfter rid (getConn s1 sid).joined }

/-- Lines 70-73 applied to one room record: push the joiner (guarded
against double-count) and initialize its ready state to false. -/
def joinRoomRecord (sid : SocketId) (room : Room) : Room :=
  let room1 := if strMem sid room.participants then room
               else { room with participants := room.participants ++ [sid] }
  { room1 with readyStates := alSet sid false room1.readyStates }

/-- Lines 70-73: update the joined room in the store. -/
def joinRoomInsert (sid : SocketId) (rid : RoomId) (s2 : ServerState) : ServerState :=
  match alGet rid s2.rooms with
  | none => s2
  | some room => { s2 with rooms := alSet rid (joinRoomRecord sid room) s2.rooms }

/-- Lines 77-80: broadcast the occupancy snapshot to the joined room. -/
def joinEmitUpdate (rid : RoomId) (s3 : ServerState) : ServerState :=
  match alGet rid s3.rooms with
  | none => s3
  | some room => emitRoom s3 (some rid) (Msg.roomUpdate room.participants.length (readyCount room))

def addToRoom (sid : SocketId) (rid : RoomId) (s1 : ServerState) : ServerState :=
  joinEmitUpdate rid (joinRoomInsert sid rid (joinConnUpdate sid rid s1))

/-- The matchmaking part of the `join-queue` handler (index.js 54-80),
run after the already-in-a-room cleanup.  A fresh room id is
`room_${Date.now()}`; the JS assignment `rooms[roomID] = {...}`
overwrites any existing room stored under the same key. -/
def matchAndJoin (RS : Nat) (sid : SocketId) (now : Nat) (s0 : ServerState) : ServerState :=
  match findRoom RS sid s0.rooms with
  | some rid => addToRoom sid rid s0
  | none =>
    addToRoom sid ("room_" ++ toString now)
      { s0 with rooms := alSet ("room_" ++ toString now) ⟨[], [], []⟩ s0.rooms }

/-- `join-queue` handler (index.js 47-81): if the socket is already in
a room, perform a full departure from it first, then matchmake. -/
def joinQueueFn (RS : Nat) (sid : SocketId) (now : Nat) (s : ServerState) : ServerState :=
  match (getConn s sid).currentRoomID with
  | some rid => matchAndJoin RS sid now (leaveRoomFn sid (some rid) s)
  | none => matchAndJoin RS sid now s

/-- Session start (index.js 98-118): emit `start-session` and arm the
two timers, whose callbacks capture the toggling socket's closure. -/
def startSessionPart (sid : SocketId) (rid : RoomId) (room1 : Room) (s2 : ServerState) : ServerState :=
  let s3 := emitRoom s2 (some rid) (Msg.startSession rid room1.participants (15 * 60 * 1000))
  { s3 with timers := s3.timers ++ [⟨sid, TimerKind.ending⟩, ⟨sid, TimerKind.dissolve⟩] }

/-- `readyStates[socket.id] = isReady` applied to a room record. -/
def readyRoomRecord (sid : SocketId) (isReady : Bool) (room : Room) : Room :=
  { room with readyStates := alSet sid isReady room.readyStates }

/-- `toggle-ready` handler (index.js 83-121).  When the start barrier
holds it emits `start-session` and arms the two session timers. -/
def toggleReadyFn (RS : Nat) (sid : SocketId) (isReady : Bool) (s : ServerState) : ServerState :=
  match (getConn s sid).currentRoomID with
  | none => s
  | some rid =>
    match alGet rid s.rooms with
    | none => s
    | some room =>
      if (readyRoomRecord sid isReady room).participants.length = RS ∧
          readyCount (readyRoomRecord sid isReady room) = RS then
        startSessionPart sid rid (readyRoomRecord sid isReady room)
          (emitRoom { s with rooms := alSet rid (readyRoomRecord sid isReady room) s.rooms }
            (some rid)
            (Msg.roomUpdate (readyRoomRecord sid isReady room).participants.length
              (readyCount (readyRoomRecord sid isReady room))))
      else
        emitRoom { s with rooms := alSet rid (readyRoomRecord sid isReady room) s.rooms }
          (some rid)
          (Msg.roomUpdate (readyRoomRecord sid isReady room).participants.length
            (readyCount (readyRoomRecord sid isReady room)))

/-- `Math.max(2, Math.floor(ROOM_SIZE / 2) + 1)` (index.js line 131). -/
def threshold (RS : Nat) : Nat := max 2 (RS / 2 + 1)

/-- `Set.add` on the accuser set: insert if absent (index.js 128). -/
def accsAfter (sid : SocketId) (accs : List SocketId) : List SocketId :=
  if strMem sid accs then accs else accs ++ [sid]

/-- The kicked room record (index.js 144-146): participants filtered,
readyStates and flags entries for the target deleted. -/
def flagKickRoom (targetId : SocketId) (room : Room) : Room :=
  { room with participants := room.participants.filter (fun p => p != targetId),
              readyStates := alErase targetId room.readyStates,
              flags := alErase targetId room.flags }

/-- The silent-kick block (index.js 134-152): direct `session-dissolved`
to the target if connected, then remove it from the bookkeeping and
broadcast `participant-removed` to the socket.io room (the target is
never made to leave that room). -/
def flagKickCore (rid targetId : String) (s2 : ServerState) : ServerState :=
  match alGet rid s2.rooms with
  | none => s2
  | some room2 =>
    emitRoom { s2 with rooms := alSet rid (flagKickRoom targetId room2) s2.rooms }
      (some rid) (Msg.participantRemoved targetId (flagKickRoom targetId room2).participants)

def flagKick (rid targetId : String) (s1 : ServerState) : ServerState :=
  flagKickCore rid targetId (emitDirect s1 targetId Msg.sessionDissolved)

/-- The room record holding the new accuser set for the target. -/
def flagRoomRecord (sid targetId : SocketId) (room : Room) : Room :=
  { room with flags := alSet targetId (accsAfter sid ((alGet targetId room.flags).getD [])) room.flags }

/-- `flag-participant` handler (index.js 123-155).  No membership check
on the target. -/
def flagFn (RS : Nat) (sid targetId : SocketId) (s : ServerState) : ServerState :=
  match (getConn s sid).currentRoomID with
  | none => s
  | some rid =>
    match alGet rid s.rooms with
    | none => s
    | some room =>
      if threshold RS ≤ (accsAfter sid ((alGet targetId room.flags).getD [])).length then
        flagKick rid targetId { s with rooms := alSet rid (flagRoomRecord sid targetId room) s.rooms }
      else
        { s with rooms := alSet rid (flagRoomRecord sid targetId room) s.rooms }

/-- `signal` handler (index.js 158-163): relay via `io.to(data.to)`. -/
def signalFn (sid toId payload : String) (s : ServerState) : ServerState :=
  emitRoom s (some toId) (Msg.signalMsg sid payload)

/-- A new connection: fresh closure with `currentRoomID = null`.
socket.io never reuses a live or past id, so a reused id is inert. -/
def connectFn (sid : SocketId) (s : ServerState) : ServerState :=
  match alGet sid s.conns with
  | some _ => s
  | none => setConn s sid ⟨true, none, []⟩

/-- The transport cleanup socket.io performs on a closing socket before
dispatching the `disconnect` event: the socket leaves every room
(`leaveAll`), is removed from the namespace, and is marked
disconnected.  The application's `currentRoomID` closure variable is
untouched by this cleanup. -/
def disconnSelf (sid : SocketId) (s : ServerState) : ServerState :=
  setConn s sid { getConn s sid with connected := false, joined := [] }

/-- `disconnect` handler (index.js 167-170): by the time it runs the
transport cleanup has already happened, so the `leaveRoom()` it calls
mutates the room bookkeeping as usual but resolves its broadcasts
against a state in which the departing socket is disconnected and in
no channel. -/
def disconnectFn (sid : SocketId) (s : ServerState) : ServerState :=
  leaveRoomFn sid none (disconnSelf sid s)

/-- Fire the i-th pending timer.  The callback reads the arming
socket's `currentRoomID` closure variable at fire time (index.js
108-118); the dissolve callback also deletes whatever room that
variable currently names. -/
def fireDissolve (orid : Option RoomId) (s0 : ServerState) : ServerState :=
  match orid with
  | none => emitRoom s0 none Msg.sessionDissolved
  | some rid =>
    match alGet rid (emitRoom s0 (some rid) Msg.sessionDissolved).rooms with
    | none => emitRoom s0 (some rid) Msg.sessionDissolved
    | some _ =>
      { (emitRoom s0 (some rid) Msg.sessionDissolved) with
        rooms := alErase rid (emitRoom s0 (some rid) Msg.sessionDissolved).rooms }

def fireTimerFn (s : ServerState) (i : Nat) : ServerState :=
  match s.timers.get? i with
  | none => s
  | some t =>
    let s0 := { s with timers := s.timers.eraseIdx i }
    match t.kind with
    | TimerKind.ending =>
      emitRoom s0 ((getConn s0 t.armer).currentRoomID) (Msg.sessionEnding (2 * 60 * 1000))
    | TimerKind.dissolve => fireDissolve ((getConn s0 t.armer).currentRoomID) s0

/-- One event-loop step.  Handlers other than `connect` and timer
callbacks only run for connected sockets (socket.io dispatches inbound
events only on live sockets). -/
def step (RS : Nat) (s : ServerState) (e : Event) : ServerState :=
  match e with
  | Event.connect sid => connectFn sid s
  | Event.joinQueue sid now => if (getConn s sid).connected then joinQueueFn RS sid now s else s
  | Event.toggleReady sid b => if (getConn s sid).connected then toggleReadyFn RS sid b s else s
  | Event.flagParticipant sid t => if (getConn s sid).connected then flagFn RS sid t s else s
  | Event.signal sid toId payload =>
      if (getConn s sid).connected then signalFn sid toId payload s else s
  | Event.leaveRoomEv sid => if (getConn s sid).connected then leaveRoomFn sid none s else s
  | Event.disconnect sid => if (getConn s sid).connected then disconnectFn sid s else s
  | Event.fireTimer i => fireTimerFn s i

/-- The state after a whole event sequence, from a fresh process. -/
def reach (RS : Nat) (es : List Event) : ServerState := es.foldl (step RS) initState

/- Observation helpers. -/

def roomAt (s : ServerState) (rid : RoomId) : Option Room := alGet rid s.rooms

def participantsAt (s : ServerState) (rid : RoomId) : List SocketId :=
  ((roomAt s rid).map Room.participants).getD []

def readyStatesAt (s : ServerState) (rid : RoomId) : List (SocketId × Bool) :=
  ((roomAt s rid).map Room.readyStates).getD []

def flagsMapAt (s : ServerState) (rid : RoomId) : List (SocketId × List SocketId) :=
  ((roomAt s rid).map Room.flags).getD []

def flagsAt (s : ServerState) (rid : RoomId) (target : SocketId) : List SocketId :=
  (alGet target (flagsMapAt s rid)).getD []

/-- Number of `start-session` emissions in a log. -/
def countStart (l : List OutEvent) : Nat :=
  (l.filter (fun e => match e.msg with | Msg.startSession _ _ _ => true | _ => false)).length

/- Concrete identifiers used by the witness traces. -/

def pA : SocketId := "A"
def pB : SocketId := "B"
def pC : SocketId := "C"
def pZ : SocketId := "Z"
def rm1 : RoomId := "room_1"
def rm7 : RoomId := "room_7"
def pl1 : String := "payload1"

/-- C1 trace: a capacity-2 room fills, both toggle ready (first
`start-session`), then one member re-sends `toggle-ready(true)`. -/
def tr1 : List Event :=
  [Event.connect pA, Event.connect pB, Event.joinQueue pA 1, Event.joinQueue pB 1,
   Event.toggleReady pA true, Event.toggleReady pB true, Event.toggleReady pA true]

/-- C3 trace prefix: session starts (timers armed in B's closure), then
B is quorum-kicked (B's `currentRoomID` stays `room_1`), then A leaves,
emptying and deleting the room.  The two timers are still pending. -/
def tr3pre : List Event :=
  [Event.connect pA, Event.connect pB, Event.joinQueue pA 1, Event.joinQueue pB 1,
   Event.toggleReady pA true, Event.toggleReady pB true,
   Event.flagParticipant pA pB, Event.flagParticipant pB pB,
   Event.leaveRoomEv pA]

/-- C3 full trace: the two pending timers fire after the room is gone. -/
def tr3 : List Event := tr3pre ++ [Event.fireTimer 0, Event.fireTimer 0]

/-- C4 trace: B is quorum-kicked and then sends `toggle-ready`. -/
def tr4 : List Event :=
  [Event.connect pA, Event.connect pB, Event.joinQueue pA 1, Event.joinQueue pB 1,
   Event.flagParticipant pA pB, Event.flagParticipant pB pB,
   Event.toggleReady pB true]

/-- C5 trace: two distinct accusers (A and B itself) flag B; quorum 2. -/
def tr5 : List Event :=
  [Event.connect pA, Event.connect pB, Event.joinQueue pA 1, Event.joinQueue pB 1,
   Event.flagParticipant pA pB, Event.flagParticipant pB pB]

/-- C6 counterexample trace: B flags A, then A leaves voluntarily. -/
def tr6 : List Event :=
  [Event.connect pA, Event.connect pB, Event.joinQueue pA 1, Event.joinQueue pB 1,
   Event.flagParticipant pB pA, Event.leaveRoomEv pA]

/-- C8 counterexample trace: C relays a signal whose `to` field is the
room id `room_1` that A and B occupy. -/
def tr8 : List Event :=
  [Event.connect pA, Event.connect pB, Event.connect pC,
   Event.joinQueue pA 1, Event.joinQueue pB 1,
   Event.signal pC rm1 pl1]

/-- C9 trace prefix: A and B fill `room_7` (created at millisecond 7). -/
def tr9pre : List Event :=
  [Event.connect pA, Event.connect pB, Event.connect pC,
   Event.joinQueue pA 7, Event.joinQueue pB 7]

/-- C9 full trace: C also joins at millisecond 7; all rooms are full so
a new room is created under the already-used id `room_7`. -/
def tr9 : List Event := tr9pre ++ [Event.joinQueue pC 7]

/-- C2 witness trace: B has already flagged A once. -/
def tr2 : List Event :=
  [Event.connect pA, Event.connect pB, Event.joinQueue pA 1, Event.joinQueue pB 1,
   Event.flagParticipant pB pA]

/-- C10 witness trace: A has flagged the non-member id Z once. -/
def tr10 : List Event :=
  [Event.connect pA, Event.connect pB, Event.joinQueue pA 1, Event.joinQueue pB 1,
   Event.flagParticipant pA pZ]

/-- Connection/room consistency: every participant of an existing room
is a connection whose `currentRoomID` closure variable names exactly
that room.  This is the inductive strengthening behind room
exclusivity. -/
def InvA (s : ServerState) : Prop :=
  ∀ rid room sid, alGet rid s.rooms = some room → sid ∈ room.participants →
    (getConn s sid).currentRoomID = some rid

/-- Flag-set consistency: every stored accuser set is duplicate-free
and strictly below the kick threshold (a set reaching the threshold is
deleted in the same handler invocation that grew it). -/
def InvD (RS : Nat) (s : ServerState) : Prop :=
  ∀ rid room target accs, alGet rid s.rooms = some room →
    alGet target room.flags = some accs → accs.Nodup ∧ accs.length < threshold RS

def Inv (RS : Nat) (s : ServerState) : Prop := InvA s ∧ InvD RS s

/-- Claim C1 (code_bug).  The claim says the barrier transition happens
at most once per room: after a room has started its session, a later
toggle-ready that re-satisfies the barrier must not emit start-session
again or arm new timers.  In the code the `toggle-ready` handler has no
phase guard: on trace `tr1` the stray third toggle re-emits
`start-session` for the same room and arms a second pair of timers, so
the log holds two `start-session` emissions and four timers. -/
theorem c1_start_not_once :
    countStart (reach 2 tr1).log = 2 ∧
    (reach 2 tr1).timers.length = 4 ∧
    (reach 2 tr1).log.drop 5 =
      [⟨Dest.room (some rm1), [pA, pB], Msg.roomUpdate 2 2⟩,
       ⟨Dest.room (some rm1), [pA, pB], Msg.startSession rm1 [pA, pB] (15 * 60 * 1000)⟩] := by
  decide

/-- Claim C3 (code_bug).  The claim says that when the last participant
departs after session start, the room is deleted and its pending
session timers are cancelled, so no session-ending or session-dissolved
event for that room is emitted afterward.  The code never cancels
timers: after trace `tr3pre` the room `room_1` is deleted (rooms table
empty) yet both timers are still pending, and firing them emits
`session-ending` and `session-dissolved` addressed to the deleted room
and delivered to the kicked socket B, which is still joined to the
room's socket.io channel. -/
theorem c3_timers_not_cancelled :
    (reach 2 tr3pre).rooms = [] ∧
    (reach 2 tr3pre).timers =
      [⟨pB, TimerKind.ending⟩, ⟨pB, TimerKind.dissolve⟩] ∧
    (reach 2 tr3).log.drop (reach 2 tr3pre).log.length =
      [⟨Dest.room (some rm1), [pB], Msg.sessionEnding (2 * 60 * 1000)⟩,
       ⟨Dest.room (some rm1), [pB], Msg.sessionDissolved⟩] := by
  decide

/-- Claim C4 (code_bug).  The claim says `|participants| = |readyStates|`
for every existing room in every reachable state, and in particular a
moderation kick followed by further events from the kicked connection
cannot create a readyStates entry for a non-participant.  On trace
`tr4` the kicked socket B (whose `currentRoomID` closure variable the
kick never cleared) sends `toggle-ready`, recreating `readyStates["B"]`
while `participants = ["A"]`: sizes 1 and 2. -/
theorem c4_ready_states_leak :
    (participantsAt (reach 2 tr4) rm1).length = 1 ∧
    (readyStatesAt (reach 2 tr4) rm1).length = 2 ∧
    readyStatesAt (reach 2 tr4) rm1 = [(pA, false), (pB, true)] ∧
    participantsAt (reach 2 tr4) rm1 = [pA] := by
  decide

/-- Claim C5 (code_bug).  The claim says the kicked target receives
exactly one `session-dissolved` and does not receive the
`participant-removed` broadcast, which goes only to the remaining
members.  In the code the kick path never makes the target leave the
socket.io room, so on trace `tr5` the broadcast
`participant-removed{peerId: B, newPeers: ["A"]}` is delivered to both
A and the kicked target B. -/
theorem c5_target_gets_broadcast :
    (reach 2 tr5).log.drop 2 =
      [⟨Dest.direct pB, [pB], Msg.sessionDissolved⟩,
       ⟨Dest.room (some rm1), [pA, pB], Msg.participantRemoved pB [pA]⟩] ∧
    pB ∈ roomRecipients (reach 2 tr5) rm1 := by
  decide

/-- Claim C9 (code_bug).  The claim says room identifiers generated at
creation never collide, so creating a room never overwrites an existing
room.  Ids are `room_${Date.now()}`: on trace `tr9`, after A and B fill
`room_7` (created at millisecond 7), C's join in the same millisecond
finds no under-capacity room and creates a room under the same id,
overwriting the stored room and evicting A and B from the store. -/
theorem c9_room_id_collision :
    (reach 2 tr9pre).rooms =
      [(rm7, ⟨[pA, pB], [(pA, false), (pB, false)], []⟩)] ∧
    (reach 2 tr9).rooms =
      [(rm7, ⟨[pC], [(pC, false)], []⟩)] := by
  decide

/-- Claim C6 counterexample.  The claim says every departure deletes
any flags entry keyed by the departing connection as target, and that
the two broadcasts go to the remaining members.  On trace `tr6`, after
B flags A and A leaves, the room still holds the flags entry
`A -> ["B"]`, and both broadcasts were delivered to the departing A as
well (A leaves the socket.io channel only after they are emitted). -/
theorem c6_flags_survive_leave :
    roomAt (reach 2 tr6) rm1 = some ⟨[pB], [(pB, false)], [(pA, [pB])]⟩ ∧
    (reach 2 tr6).log.drop 2 =
      [⟨Dest.room (some rm1), [pA, pB], Msg.roomUpdate 1 0⟩,
       ⟨Dest.room (some rm1), [pA, pB], Msg.participantRemoved pA [pB]⟩] := by
  decide

/-- Claim C8 counterexample.  The claim says a relayed signal is
delivered only to the connection identified by `to` and is dropped
silently when `to` is not a currently connected identifier.  On trace
`tr8`, `to` is the room id `room_1` — not a connected socket id — yet
the relay `io.to(data.to)` matches the socket.io room of that name and
delivers the signal to both of its members A and B. -/
theorem c8_signal_to_room_name :
    (reach 2 tr8).log.drop 2 =
      [⟨Dest.room (some rm1), [pA, pB], Msg.signalMsg pC pl1⟩] ∧
    (getConn (reach 2 tr8) rm1).connected = false := by
  decide

/-! ### Association-list and membership lemmas -/

theorem strMem_iff {x : String} {l : List String} : strMem x l = true ↔ x ∈ l := by
  induction l with
  | nil => simp [strMem]
  | cons y ys ih =>
    simp only [strMem, Bool.or_eq_true, beq_iff_eq, List.mem_cons, ih]

theorem strMem_false_iff {x : String} {l : List String} : strMem x l = false ↔ x ∉ l := by
  rw [← strMem_iff]
  cases h : strMem x l <;> simp

theorem alGet_alSet_self {α : Type} (k : String) (v : α) (l : List (String × α)) :
    alGet k (alSet k v l) = some v := by
  induction l with
  | nil => simp [alSet, alGet]
  | cons p rest ih =>
    obtain ⟨k1, v1⟩ := p
    by_cases h : k1 = k
    · simp [alSet, alGet, h]
    · simp [alSet, alGet, h, ih]

theorem alGet_alSet_ne {α : Type} {k k' : String} (v : α) (l : List (String × α))
    (h : k' ≠ k) : alGet k' (alSet k v l) = alGet k' l := by
  induction l with
  | nil => simp [alSet, alGet, Ne.symm h]
  | cons p rest ih =>
    obtain ⟨k1, v1⟩ := p
    by_cases h1 : k1 = k
    · subst h1
      simp [alSet, alGet, Ne.symm h, ih]
    · simp [alSet, alGet, h1, ih]

theorem alGet_alErase_self {α : Type} (k : String) (l : List (String × α)) :
    alGet k (alErase k l) = none := by
  induction l with
  | nil => simp [alErase, alGet]
  | cons p rest ih =>
    obtain ⟨k1, v1⟩ := p
    by_cases h : k1 = k
    · simp [alErase, h, ih]
    · simp [alErase, alGet, h, ih]

theorem alGet_alErase_ne {α : Type} {k k' : String} (l : List (String × α))
    (h : k' ≠ k) : alGet k' (alErase k l) = alGet k' l := by
  induction l with
  | nil => simp [alErase]
  | cons p rest ih =>
    obtain ⟨k1, v1⟩ := p
    by_cases h1 : k1 = k
    · subst h1
      simp [alErase, alGet, Ne.symm h, ih]
    · simp [alErase, alGet, h1, ih]

theorem alSet_self {α : Type} {k : String} {v : α} {l : List (String × α)}
    (h : alGet k l = some v) : alSet k v l = l := by
  induction l with
  | nil => simp [alGet] at h
  | cons p rest ih =>
    obtain ⟨k1, v1⟩ := p
    by_cases h1 : k1 = k
    · subst h1
      simp [alGet] at h
      simp [alSet, h]
    · simp [alGet, h1] at h
      simp [alSet, h1, ih h]

/-! ### State-projection lemmas -/

theorem emitRoom_rooms (s : ServerState) (o : Option String) (m : Msg) :
    (emitRoom s o m).rooms = s.rooms := by
  cases o <;> rfl

theorem emitRoom_conns (s : ServerState) (o : Option String) (m : Msg) :
    (emitRoom s o m).conns = s.conns := by
  cases o <;> rfl

theorem emitDirect_rooms (s : ServerState) (sid : SocketId) (m : Msg) :
    (emitDirect s sid m).rooms = s.rooms := by
  unfold emitDirect
  split <;> rfl

theorem emitDirect_conns (s : ServerState) (sid : SocketId) (m : Msg) :
    (emitDirect s sid m).conns = s.conns := by
  unfold emitDirect
  split <;> rfl

theorem setConn_rooms (s : ServerState) (sid : SocketId) (c : Conn) :
    (setConn s sid c).rooms = s.rooms := rfl

theorem getConn_setConn_self (s : ServerState) (sid : SocketId) (c : Conn) :
    getConn (setConn s sid c) sid = c := by
  unfold getConn setConn
  simp [alGet_alSet_self]

theorem getConn_setConn_ne (s : ServerState) {sid sid' : SocketId} (c : Conn)
    (h : sid' ≠ sid) : getConn (setConn s sid c) sid' = getConn s sid' := by
  unfold getConn setConn
  simp [alGet_alSet_ne _ _ h]

theorem getConn_conns_eq {s s' : ServerState} (h : s'.conns = s.conns) (sid : SocketId) :
    getConn s' sid = getConn s sid := by
  unfold getConn
  rw [h]

theorem roomRecipients_conns_eq {s s' : ServerState} (h : s'.conns = s.conns) (x : String) :
    roomRecipients s' x = roomRecipients s x := by
  unfold roomRecipients
  rw [h]

/-- The invariant only reads `rooms` and `conns`. -/
theorem inv_congr {RS : Nat} {s s' : ServerState} (hr : s'.rooms = s.rooms)
    (hc : s'.conns = s.conns) (h : Inv RS s) : Inv RS s' := by
  obtain ⟨hA, hD⟩ := h
  constructor
  · intro rid room sid hg hm
    rw [getConn_conns_eq hc]
    exact hA rid room sid (by rw [← hr]; exact hg) hm
  · intro rid room target accs hg hf
    exact hD rid room target accs (by rw [← hr]; exact hg) hf

theorem invD_congr {RS : Nat} {s s' : ServerState} (hr : s'.rooms = s.rooms)
    (h : InvD RS s) : InvD RS s' := by
  intro rid room target accs hg hf
  exact h rid room target accs (by rw [← hr]; exact hg) hf

theorem resolveTarget_self (c : Option RoomId) : resolveTarget c c = c := by
  cases c <;> rfl

/-! ### Invariant preservation -/

/-- The conn update at the end of `leaveRoom` (socket.leave plus the
conditional `currentRoomID = null`) preserves the membership invariant,
provided the departing socket is no longer a participant of any room
stored under the departed id. -/
theorem invA_setConn_leaveVar {s1 : ServerState} {sid : SocketId} {target : RoomId}
    (hA1 : InvA s1)
    (hsid : ∀ rid room, alGet rid s1.rooms = some room → sid ∈ room.participants → rid ≠ target)
    (jj : List RoomId) :
    InvA (setConn s1 sid
      { getConn s1 sid with
        joined := jj,
        currentRoomID := (if (getConn s1 sid).currentRoomID = some target then none
                          else (getConn s1 sid).currentRoomID) }) := by
  intro rid room x hg hm
  rw [setConn_rooms] at hg
  have hcur := hA1 rid room x hg hm
  by_cases hx : x = sid
  · subst hx
    rw [getConn_setConn_self]
    have hne : rid ≠ target := hsid rid room hg hm
    show (if (getConn s1 x).currentRoomID = some target then none
          else (getConn s1 x).currentRoomID) = some rid
    rw [hcur]
    rw [if_neg (by simp [hne])]
  · rw [getConn_setConn_ne _ _ hx]
    exact hcur

theorem leaveRoomUpdate_conns (sid : SocketId) (target : RoomId) (s : ServerState) :
    (leaveRoomUpdate sid target s).conns = s.conns := by
  unfold leaveRoomUpdate
  split
  · rfl
  · split
    · rfl
    · rw [emitRoom_conns, emitRoom_conns]

theorem leaveRoomUpdate_invA {s : ServerState} {sid : SocketId} {target : RoomId}
    (hA : InvA s) : InvA (leaveRoomUpdate sid target s) := by
  intro rid room x hg hm
  rw [getConn_conns_eq (leaveRoomUpdate_conns sid target s)]
  unfold leaveRoomUpdate at hg
  split at hg
  · exact hA rid room x hg hm
  · rename_i room0 hR
    split at hg
    · have hg1 : alGet rid (alErase target s.rooms) = some room := hg
      by_cases hrt : rid = target
      · subst hrt
        rw [alGet_alErase_self] at hg1
        exact Option.noConfusion hg1
      · rw [alGet_alErase_ne _ hrt] at hg1
        exact hA rid room x hg1 hm
    · rw [emitRoom_rooms, emitRoom_rooms] at hg
      have hg1 : alGet rid (alSet target (roomAfterLeave sid room0) s.rooms) = some room := hg
      by_cases hrt : rid = target
      · subst hrt
        rw [alGet_alSet_self] at hg1
        cases hg1
        have hm1 : x ∈ room0.participants.filter (fun p => p != sid) := hm
        rw [List.mem_filter] at hm1
        exact hA rid room0 x hR hm1.1
      · rw [alGet_alSet_ne _ _ hrt] at hg1
        exact hA rid room x hg1 hm

theorem leaveRoomUpdate_invD {RS : Nat} {s : ServerState} {sid : SocketId} {target : RoomId}
    (hD : InvD RS s) : InvD RS (leaveRoomUpdate sid target s) := by
  intro rid room target1 accs hg hf
  unfold leaveRoomUpdate at hg
  split at hg
  · exact hD rid room target1 accs hg hf
  · rename_i room0 hR
    split at hg
    · have hg1 : alGet rid (alErase target s.rooms) = some room := hg
      by_cases hrt : rid = target
      · subst hrt
        rw [alGet_alErase_self] at hg1
        exact Option.noConfusion hg1
      · rw [alGet_alErase_ne _ hrt] at hg1
        exact hD rid room target1 accs hg1 hf
    · rw [emitRoom_rooms, emitRoom_rooms] at hg
      have hg1 : alGet rid (alSet target (roomAfterLeave sid room0) s.rooms) = some room := hg
      by_cases hrt : rid = target
      · subst hrt
        rw [alGet_alSet_self] at hg1
        cases hg1
        exact hD rid room0 target1 accs hR hf
      · rw [alGet_alSet_ne _ _ hrt] at hg1
        exact hD rid room target1 accs hg1 hf

theorem leaveRoomUpdate_hsid {s : ServerState} {sid : SocketId} {target : RoomId} :
    ∀ rid room, alGet rid (leaveRoomUpdate sid target s).rooms = some room →
      sid ∈ room.participants → rid ≠ target := by
  intro rid room hg hm heq
  subst heq
  unfold leaveRoomUpdate at hg
  split at hg
  · rename_i hR
    rw [hR] at hg
    exact Option.noConfusion hg
  · rename_i room0 hR
    split at hg
    · have hg1 : alGet rid (alErase rid s.rooms) = some room := hg
      rw [alGet_alErase_self] at hg1
      exact Option.noConfusion hg1
    · rw [emitRoom_rooms, emitRoom_rooms] at hg
      have hg1 : alGet rid (alSet rid (roomAfterLeave sid room0) s.rooms) = some room := hg
      rw [alGet_alSet_self] at hg1
      cases hg1
      have hm1 : sid ∈ room0.participants.filter (fun p => p != sid) := hm
      rw [List.mem_filter] at hm1
      simp at hm1

theorem leaveRoomUpdate_get_ne {s : ServerState} {sid : SocketId} {target rid : RoomId}
    (h : rid ≠ target) :
    alGet rid (leaveRoomUpdate sid target s).rooms = alGet rid s.rooms := by
  unfold leaveRoomUpdate
  split
  · rfl
  · rename_i room0 hR
    split
    · show alGet rid (alErase target s.rooms) = alGet rid s.rooms
      exact alGet_alErase_ne _ h
    · rw [emitRoom_rooms, emitRoom_rooms]
      show alGet rid (alSet target (roomAfterLeave sid room0) s.rooms) = alGet rid s.rooms
      exact alGet_alSet_ne _ _ h

theorem leaveRoomCore_inv {RS : Nat} {s : ServerState} (sid : SocketId) (target : RoomId)
    (h : Inv RS s) : Inv RS (leaveRoomCore sid target s) := by
  obtain ⟨hA, hD⟩ := h
  exact ⟨invA_setConn_leaveVar (leaveRoomUpdate_invA hA) leaveRoomUpdate_hsid _,
         invD_congr rfl (leaveRoomUpdate_invD hD)⟩

theorem leaveRoomFn_inv {RS : Nat} {s : ServerState} (sid : SocketId) (idArg : Option RoomId)
    (h : Inv RS s) : Inv RS (leaveRoomFn sid idArg s) := by
  unfold leaveRoomFn
  cases hT : resolveTarget idArg (getConn s sid).currentRoomID with
  | none => exact h
  | some target => exact leaveRoomCore_inv sid target h

theorem leave_not_mem {RS : Nat} {s : ServerState} {sid : SocketId} {idArg : Option RoomId}
    (h : Inv RS s)
    (hArg : idArg = none ∨ idArg = (getConn s sid).currentRoomID) :
    ∀ r room, alGet r (leaveRoomFn sid idArg s).rooms = some room → sid ∉ room.participants := by
  obtain ⟨hA, hD⟩ := h
  intro r room hg hm
  unfold leaveRoomFn at hg
  have hres : resolveTarget idArg (getConn s sid).currentRoomID = (getConn s sid).currentRoomID := by
    rcases hArg with rfl | rfl
    · rfl
    · exact resolveTarget_self _
  rw [hres] at hg
  cases hcur : (getConn s sid).currentRoomID with
  | none =>
    rw [hcur] at hg
    have hg1 : alGet r s.rooms = some room := hg
    have h2 := hA r room sid hg1 hm
    rw [hcur] at h2
    exact Option.noConfusion h2
  | some target =>
    rw [hcur] at hg
    have hg2 : alGet r (leaveRoomUpdate sid target s).rooms = some room := hg
    by_cases hrt : r = target
    · subst hrt
      exact (leaveRoomUpdate_hsid r room hg2 hm) rfl
    · rw [leaveRoomUpdate_get_ne hrt] at hg2
      have h3 := hA r room sid hg2 hm
      rw [hcur] at h3
      injection h3 with h4
      exact hrt h4.symm

theorem joinRoomRecord_participants_eq_pos {sid : SocketId} {room : Room}
    (hc : strMem sid room.participants = true) :
    (joinRoomRecord sid room).participants = room.participants := by
  unfold joinRoomRecord
  rw [if_pos hc]

theorem joinRoomRecord_participants_eq_neg {sid : SocketId} {room : Room}
    (hc : ¬strMem sid room.participants = true) :
    (joinRoomRecord sid room).participants = room.participants ++ [sid] := by
  unfold joinRoomRecord
  rw [if_neg hc]

theorem joinRoomRecord_mem {sid : SocketId} {room : Room} {y : SocketId}
    (hy : y ∈ (joinRoomRecord sid room).participants) :
    y ∈ room.participants ∨ y = sid := by
  by_cases hc : strMem sid room.participants = true
  · rw [joinRoomRecord_participants_eq_pos hc] at hy
    exact Or.inl hy
  · rw [joinRoomRecord_participants_eq_neg hc] at hy
    rcases List.mem_append.mp hy with h | h
    · exact Or.inl h
    · right
      simpa using h

theorem joinRoomRecord_flags (sid : SocketId) (room : Room) :
    (joinRoomRecord sid room).flags = room.flags := by
  unfold joinRoomRecord
  by_cases hc : strMem sid room.participants = true
  · rw [if_pos hc]
  · rw [if_neg hc]

theorem joinConnUpdate_rooms (sid : SocketId) (rid : RoomId) (s1 : ServerState) :
    (joinConnUpdate sid rid s1).rooms = s1.rooms := rfl

theorem joinConnUpdate_cur (sid : SocketId) (rid : RoomId) (s1 : ServerState) :
    (getConn (joinConnUpdate sid rid s1) sid).currentRoomID = some rid := by
  unfold joinConnUpdate
  rw [getConn_setConn_self]

theorem joinConnUpdate_invA {s1 : ServerState} {sid : SocketId} {rid : RoomId}
    (hA : InvA s1)
    (hNot : ∀ r room, alGet r s1.rooms = some room → sid ∉ room.participants) :
    InvA (joinConnUpdate sid rid s1) := by
  intro r room x hg hm
  have hg1 : alGet r s1.rooms = some room := hg
  by_cases hx : x = sid
  · subst hx
    exact absurd hm (hNot r room hg1)
  · unfold joinConnUpdate
    rw [getConn_setConn_ne _ _ hx]
    exact hA r room x hg1 hm

theorem joinRoomInsert_conns (sid : SocketId) (rid : RoomId) (s2 : ServerState) :
    (joinRoomInsert sid rid s2).conns = s2.conns := by
  unfold joinRoomInsert
  split
  · rfl
  · rfl

theorem joinRoomInsert_inv {RS : Nat} {s2 : ServerState} {sid : SocketId} {rid : RoomId}
    (hA : InvA s2) (hD : InvD RS s2)
    (hNot : ∀ r room, alGet r s2.rooms = some room → sid ∉ room.participants)
    (hcur : (getConn s2 sid).currentRoomID = some rid) :
    Inv RS (joinRoomInsert sid rid s2) := by
  constructor
  · intro r room' x hg hm
    rw [getConn_conns_eq (joinRoomInsert_conns sid rid s2)]
    unfold joinRoomInsert at hg
    split at hg
    · exact hA r room' x hg hm
    · rename_i room hR
      have hg1 : alGet r (alSet rid (joinRoomRecord sid room) s2.rooms) = some room' := hg
      by_cases hr : r = rid
      · subst hr
        rw [alGet_alSet_self] at hg1
        cases hg1
        rcases joinRoomRecord_mem hm with h1 | h1
        · exact hA r room x hR h1
        · subst h1
          exact hcur
      · rw [alGet_alSet_ne _ _ hr] at hg1
        exact hA r room' x hg1 hm
  · intro r room' t accs hg hf
    unfold joinRoomInsert at hg
    split at hg
    · exact hD r room' t accs hg hf
    · rename_i room hR
      have hg1 : alGet r (alSet rid (joinRoomRecord sid room) s2.rooms) = some room' := hg
      by_cases hr : r = rid
      · subst hr
        rw [alGet_alSet_self] at hg1
        cases hg1
        rw [joinRoomRecord_flags] at hf
        exact hD r room t accs hR hf
      · rw [alGet_alSet_ne _ _ hr] at hg1
        exact hD r room' t accs hg1 hf

theorem joinEmitUpdate_inv {RS : Nat} {s3 : ServerState} (rid : RoomId)
    (h : Inv RS s3) : Inv RS (joinEmitUpdate rid s3) := by
  unfold joinEmitUpdate
  split
  · exact h
  · exact inv_congr (emitRoom_rooms _ _ _) (emitRoom_conns _ _ _) h

theorem addToRoom_inv {RS : Nat} {s1 : ServerState} {sid : SocketId} {rid : RoomId}
    (h : Inv RS s1)
    (hNot : ∀ r room, alGet r s1.rooms = some room → sid ∉ room.participants) :
    Inv RS (addToRoom sid rid s1) := by
  obtain ⟨hA, hD⟩ := h
  have h2A : InvA (joinConnUpdate sid rid s1) := joinConnUpdate_invA hA hNot
  have h2D : InvD RS (joinConnUpdate sid rid s1) := invD_congr (joinConnUpdate_rooms sid rid s1) hD
  have h2N : ∀ r room, alGet r (joinConnUpdate sid rid s1).rooms = some room →
      sid ∉ room.participants := fun r room hg => hNot r room hg
  have h2c := joinConnUpdate_cur sid rid s1
  exact joinEmitUpdate_inv rid (joinRoomInsert_inv h2A h2D h2N h2c)

theorem matchAndJoin_inv {RS : Nat} {s0 : ServerState} {sid : SocketId} (now : Nat)
    (h : Inv RS s0)
    (hNot : ∀ r room, alGet r s0.rooms = some room → sid ∉ room.participants) :
    Inv RS (matchAndJoin RS sid now s0) := by
  unfold matchAndJoin
  cases hF : findRoom RS sid s0.rooms with
  | some rid => exact addToRoom_inv h hNot
  | none =>
    refine addToRoom_inv ⟨?_, ?_⟩ ?_
    · intro r room x hg hm
      have hg1 : alGet r (alSet ("room_" ++ toString now) ⟨[], [], []⟩ s0.rooms) = some room := hg
      by_cases hr : r = "room_" ++ toString now
      · subst hr
        rw [alGet_alSet_self] at hg1
        cases hg1
        simp at hm
      · rw [alGet_alSet_ne _ _ hr] at hg1
        exact h.1 r room x hg1 hm
    · intro r room t accs hg hf
      have hg1 : alGet r (alSet ("room_" ++ toString now) ⟨[], [], []⟩ s0.rooms) = some room := hg
      by_cases hr : r = "room_" ++ toString now
      · subst hr
        rw [alGet_alSet_self] at hg1
        cases hg1
        have hf1 : (none : Option (List SocketId)) = some accs := hf
        exact Option.noConfusion hf1
      · rw [alGet_alSet_ne _ _ hr] at hg1
        exact h.2 r room t accs hg1 hf
    · intro r room hg
      have hg1 : alGet r (alSet ("room_" ++ toString now) ⟨[], [], []⟩ s0.rooms) = some room := hg
      by_cases hr : r = "room_" ++ toString now
      · subst hr
        rw [alGet_alSet_self] at hg1
        cases hg1
        simp
      · rw [alGet_alSet_ne _ _ hr] at hg1
        exact hNot r room hg1

theorem joinQueueFn_inv {RS : Nat} {s : ServerState} (sid : SocketId) (now : Nat)
    (h : Inv RS s) : Inv RS (joinQueueFn RS sid now s) := by
  unfold joinQueueFn
  cases hc : (getConn s sid).currentRoomID with
  | none =>
    refine matchAndJoin_inv now h ?_
    intro r room hg hm
    have h2 := h.1 r room sid hg hm
    rw [hc] at h2
    exact Option.noConfusion h2
  | some rid =>
    exact matchAndJoin_inv now (leaveRoomFn_inv sid (some rid) h)
      (leave_not_mem h (Or.inr hc.symm))

theorem toggleReadyFn_inv {RS : Nat} {s : ServerState} (sid : SocketId) (b : Bool)
    (h : Inv RS s) : Inv RS (toggleReadyFn RS sid b s) := by
  obtain ⟨hA, hD⟩ := h
  unfold toggleReadyFn
  split
  · exact ⟨hA, hD⟩
  · rename_i rid hcur
    split
    · exact ⟨hA, hD⟩
    · rename_i room hR
      have hbase : Inv RS { s with rooms := alSet rid (readyRoomRecord sid b room) s.rooms } := by
        constructor
        · intro r room' x hg hm
          have hg1 : alGet r (alSet rid (readyRoomRecord sid b room) s.rooms) = some room' := hg
          show (getConn s x).currentRoomID = some r
          by_cases hr : r = rid
          · subst hr
            rw [alGet_alSet_self] at hg1
            cases hg1
            exact hA r room x hR hm
          · rw [alGet_alSet_ne _ _ hr] at hg1
            exact hA r room' x hg1 hm
        · intro r room' t accs hg hf
          have hg1 : alGet r (alSet rid (readyRoomRecord sid b room) s.rooms) = some room' := hg
          by_cases hr : r = rid
          · subst hr
            rw [alGet_alSet_self] at hg1
            cases hg1
            exact hD r room t accs hR hf
          · rw [alGet_alSet_ne _ _ hr] at hg1
            exact hD r room' t accs hg1 hf
      split
      · exact inv_congr rfl rfl hbase
      · exact inv_congr rfl rfl hbase

theorem accsAfter_nodup {sid : SocketId} {accs : List SocketId}
    (h : accs.Nodup) : (accsAfter sid accs).Nodup := by
  unfold accsAfter
  by_cases hc : strMem sid accs = true
  · rw [if_pos hc]
    exact h
  · rw [if_neg hc]
    have hf : strMem sid accs = false := by
      cases hcc : strMem sid accs with
      | false => rfl
      | true => exact absurd hcc hc
    have hnm : sid ∉ accs := strMem_false_iff.mp hf
    simp [List.nodup_append, h, hnm]

theorem flagKickCore_inv {RS : Nat} {s2 : ServerState} {rid targetId : String}
    (hA2 : InvA s2)
    (hD2 : ∀ r room t accs, alGet r s2.rooms = some room → alGet t room.flags = some accs →
      (r = rid ∧ t = targetId) ∨ (accs.Nodup ∧ accs.length < threshold RS)) :
    Inv RS (flagKickCore rid targetId s2) := by
  unfold flagKickCore
  split
  · rename_i hnone
    constructor
    · exact hA2
    · intro r room t accs hg hf
      rcases hD2 r room t accs hg hf with ⟨hr, _⟩ | hok
      · subst hr
        rw [hg] at hnone
        exact Option.noConfusion hnone
      · exact hok
  · rename_i room2 hR2
    constructor
    · intro r room x hg hm
      have hg1 : alGet r (alSet rid (flagKickRoom targetId room2) s2.rooms) = some room := hg
      show (getConn s2 x).currentRoomID = some r
      by_cases hr : r = rid
      · subst hr
        rw [alGet_alSet_self] at hg1
        cases hg1
        have hm1 : x ∈ room2.participants.filter (fun p => p != targetId) := hm
        rw [List.mem_filter] at hm1
        exact hA2 r room2 x hR2 hm1.1
      · rw [alGet_alSet_ne _ _ hr] at hg1
        exact hA2 r room x hg1 hm
    · intro r room t accs hg hf
      have hg1 : alGet r (alSet rid (flagKickRoom targetId room2) s2.rooms) = some room := hg
      by_cases hr : r = rid
      · subst hr
        rw [alGet_alSet_self] at hg1
        cases hg1
        have hf1 : alGet t (alErase targetId room2.flags) = some accs := hf
        by_cases ht : t = targetId
        · subst ht
          rw [alGet_alErase_self] at hf1
          exact Option.noConfusion hf1
        · rw [alGet_alErase_ne _ ht] at hf1
          rcases hD2 r room2 t accs hR2 hf1 with ⟨_, ht2⟩ | hok
          · exact absurd ht2 ht
          · exact hok
      · rw [alGet_alSet_ne _ _ hr] at hg1
        rcases hD2 r room t accs hg1 hf with ⟨hr2, _⟩ | hok
        · exact absurd hr2 hr
        · exact hok

theorem flagKick_inv {RS : Nat} {s1 : ServerState} {rid targetId : String}
    (hA1 : InvA s1)
    (hD1 : ∀ r room t accs, alGet r s1.rooms = some room → alGet t room.flags = some accs →
      (r = rid ∧ t = targetId) ∨ (accs.Nodup ∧ accs.length < threshold RS)) :
    Inv RS (flagKick rid targetId s1) := by
  unfold flagKick
  refine flagKickCore_inv ?_ ?_
  · intro r room x hg hm
    rw [emitDirect_rooms] at hg
    rw [getConn_conns_eq (emitDirect_conns s1 targetId Msg.sessionDissolved)]
    exact hA1 r room x hg hm
  · intro r room t accs hg hf
    rw [emitDirect_rooms] at hg
    exact hD1 r room t accs hg hf

theorem flagFn_inv {RS : Nat} {s : ServerState} (sid targetId : SocketId)
    (h : Inv RS s) : Inv RS (flagFn RS sid targetId s) := by
  obtain ⟨hA, hD⟩ := h
  unfold flagFn
  split
  · exact ⟨hA, hD⟩
  · rename_i rid hcur
    split
    · exact ⟨hA, hD⟩
    · rename_i room hR
      have haccs : ((alGet targetId room.flags).getD []).Nodup := by
        cases hflag : alGet targetId room.flags with
        | none => simp
        | some accs0 => simpa using (hD rid room targetId accs0 hR hflag).1
      have hsetA : InvA { s with rooms := alSet rid (flagRoomRecord sid targetId room) s.rooms } := by
        intro r room' x hg hm
        have hg1 : alGet r (alSet rid (flagRoomRecord sid targetId room) s.rooms) = some room' := hg
        show (getConn s x).currentRoomID = some r
        by_cases hr : r = rid
        · subst hr
          rw [alGet_alSet_self] at hg1
          cases hg1
          exact hA r room x hR hm
        · rw [alGet_alSet_ne _ _ hr] at hg1
          exact hA r room' x hg1 hm
      split
      · -- quorum reached: kick path
        refine flagKick_inv hsetA ?_
        intro r room' t accs hg hf
        have hg1 : alGet r (alSet rid (flagRoomRecord sid targetId room) s.rooms) = some room' := hg
        by_cases hr : r = rid
        · subst hr
          rw [alGet_alSet_self] at hg1
          cases hg1
          have hf1 : alGet t (alSet targetId (accsAfter sid ((alGet targetId room.flags).getD [])) room.flags) = some accs := hf
          by_cases ht : t = targetId
          · subst ht
            exact Or.inl ⟨rfl, rfl⟩
          · rw [alGet_alSet_ne _ _ ht] at hf1
            exact Or.inr (hD r room t accs hR hf1)
        · rw [alGet_alSet_ne _ _ hr] at hg1
          exact Or.inr (hD r room' t accs hg1 hf)
      · -- below quorum: only the flag set grew
        rename_i hq
        refine ⟨hsetA, ?_⟩
        intro r room' t accs hg hf
        have hg1 : alGet r (alSet rid (flagRoomRecord sid targetId room) s.rooms) = some room' := hg
        by_cases hr : r = rid
        · subst hr
          rw [alGet_alSet_self] at hg1
          cases hg1
          have hf1 : alGet t (alSet targetId (accsAfter sid ((alGet targetId room.flags).getD [])) room.flags) = some accs := hf
          by_cases ht : t = targetId
          · subst ht
            rw [alGet_alSet_self] at hf1
            cases hf1
            exact ⟨accsAfter_nodup haccs, Nat.lt_of_not_le hq⟩
          · rw [alGet_alSet_ne _ _ ht] at hf1
            exact hD r room t accs hR hf1
        · rw [alGet_alSet_ne _ _ hr] at hg1
          exact hD r room' t accs hg1 hf

theorem connectFn_inv {RS : Nat} {s : ServerState} (sid : SocketId)
    (h : Inv RS s) : Inv RS (connectFn sid s) := by
  unfold connectFn
  split
  · exact h
  · rename_i hc
    constructor
    · intro r room x hg hm
      rw [setConn_rooms] at hg
      by_cases hx : x = sid
      · subst hx
        have h2 := h.1 r room x hg hm
        have h3 : (getConn s x).currentRoomID = none := by
          unfold getConn
          rw [hc]
          rfl
        rw [h3] at h2
        exact Option.noConfusion h2
      · rw [getConn_setConn_ne _ _ hx]
        exact h.1 r room x hg hm
    · exact invD_congr rfl h.2

theorem disconnSelf_inv {RS : Nat} {s : ServerState} (sid : SocketId)
    (h : Inv RS s) : Inv RS (disconnSelf sid s) := by
  constructor
  · intro r room x hg hm
    have hg1 : alGet r s.rooms = some room := hg
    unfold disconnSelf
    by_cases hx : x = sid
    · subst hx
      rw [getConn_setConn_self]
      exact h.1 r room x hg1 hm
    · rw [getConn_setConn_ne _ _ hx]
      exact h.1 r room x hg1 hm
  · exact invD_congr rfl h.2

theorem disconnectFn_inv {RS : Nat} {s : ServerState} (sid : SocketId)
    (h : Inv RS s) : Inv RS (disconnectFn sid s) :=
  leaveRoomFn_inv sid none (disconnSelf_inv sid h)

theorem fireDissolve_inv {RS : Nat} {s0 : ServerState} (orid : Option RoomId)
    (h : Inv RS s0) : Inv RS (fireDissolve orid s0) := by
  unfold fireDissolve
  split
  · exact inv_congr (emitRoom_rooms _ _ _) (emitRoom_conns _ _ _) h
  · rename_i rid
    split
    · exact inv_congr (emitRoom_rooms _ _ _) (emitRoom_conns _ _ _) h
    · constructor
      · intro r room x hg hm
        have hg1 : alGet r (alErase rid s0.rooms) = some room := hg
        show (getConn s0 x).currentRoomID = some r
        by_cases hr : r = rid
        · subst hr
          rw [alGet_alErase_self] at hg1
          exact Option.noConfusion hg1
        · rw [alGet_alErase_ne _ hr] at hg1
          exact h.1 r room x hg1 hm
      · intro r room t accs hg hf
        have hg1 : alGet r (alErase rid s0.rooms) = some room := hg
        by_cases hr : r = rid
        · subst hr
          rw [alGet_alErase_self] at hg1
          exact Option.noConfusion hg1
        · rw [alGet_alErase_ne _ hr] at hg1
          exact h.2 r room t accs hg1 hf

theorem fireTimerFn_inv {RS : Nat} {s : ServerState} (i : Nat)
    (h : Inv RS s) : Inv RS (fireTimerFn s i) := by
  unfold fireTimerFn
  split
  · exact h
  · rename_i t ht
    split
    · exact inv_congr (by rw [emitRoom_rooms]) (by rw [emitRoom_conns]) h
    · exact fireDissolve_inv _ (inv_congr rfl rfl h)

theorem step_inv {RS : Nat} {s : ServerState} (e : Event)
    (h : Inv RS s) : Inv RS (step RS s e) := by
  cases e with
  | connect sid => exact connectFn_inv sid h
  | joinQueue sid now =>
    by_cases hc : (getConn s sid).connected = true
    · show Inv RS (if (getConn s sid).connected = true then joinQueueFn RS sid now s else s)
      rw [if_pos hc]
      exact joinQueueFn_inv sid now h
    · show Inv RS (if (getConn s sid).connected = true then joinQueueFn RS sid now s else s)
      rw [if_neg hc]
      exact h
  | toggleReady sid b =>
    by_cases hc : (getConn s sid).connected = true
    · show Inv RS (if (getConn s sid).connected = true then toggleReadyFn RS sid b s else s)
      rw [if_pos hc]
      exact toggleReadyFn_inv sid b h
    · show Inv RS (if (getConn s sid).connected = true then toggleReadyFn RS sid b s else s)
      rw [if_neg hc]
      exact h
  | flagParticipant sid t =>
    by_cases hc : (getConn s sid).connected = true
    · show Inv RS (if (getConn s sid).connected = true then flagFn RS sid t s else s)
      rw [if_pos hc]
      exact flagFn_inv sid t h
    · show Inv RS (if (getConn s sid).connected = true then flagFn RS sid t s else s)
      rw [if_neg hc]
      exact h
  | signal sid toId payload =>
    by_cases hc : (getConn s sid).connected = true
    · show Inv RS (if (getConn s sid).connected = true then signalFn sid toId payload s else s)
      rw [if_pos hc]
      exact inv_congr (emitRoom_rooms _ _ _) (emitRoom_conns _ _ _) h
    · show Inv RS (if (getConn s sid).connected = true then signalFn sid toId payload s else s)
      rw [if_neg hc]
      exact h
  | leaveRoomEv sid =>
    by_cases hc : (getConn s sid).connected = true
    · show Inv RS (if (getConn s sid).connected = true then leaveRoomFn sid none s else s)
      rw [if_pos hc]
      exact leaveRoomFn_inv sid none h
    · show Inv RS (if (getConn s sid).connected = true then leaveRoomFn sid none s else s)
      rw [if_neg hc]
      exact h
  | disconnect sid =>
    by_cases hc : (getConn s sid).connected = true
    · show Inv RS (if (getConn s sid).connected = true then disconnectFn sid s else s)
      rw [if_pos hc]
      exact disconnectFn_inv sid h
    · show Inv RS (if (getConn s sid).connected = true then disconnectFn sid s else s)
      rw [if_neg hc]
      exact h
  | fireTimer i => exact fireTimerFn_inv i h

theorem inv_init {RS : Nat} : Inv RS initState := by
  constructor
  · intro r room x hg _
    have : (none : Option Room) = some room := hg
    exact Option.noConfusion this
  · intro r room t accs hg _
    have : (none : Option Room) = some room := hg
    exact Option.noConfusion this

theorem foldl_inv {RS : Nat} (es : List Event) :
    ∀ s : ServerState, Inv RS s → Inv RS (es.foldl (step RS) s) := by
  induction es with
  | nil => intro s h; exact h
  | cons e rest ih =>
    intro s h
    exact ih _ (step_inv e h)

theorem reach_inv (RS : Nat) (es : List Event) : Inv RS (reach RS es) :=
  foldl_inv es initState inv_init

/-! ### Handler characterization lemmas -/

theorem step_joinQueue_eq {RS : Nat} {s : ServerState} {sid : SocketId} (now : Nat)
    (hconn : (getConn s sid).connected = true) :
    step RS s (Event.joinQueue sid now) = joinQueueFn RS sid now s := by
  show (if (getConn s sid).connected = true then joinQueueFn RS sid now s else s) = _
  rw [if_pos hconn]

theorem step_flag_eq {RS : Nat} {s : ServerState} {sid targetId : SocketId}
    (hconn : (getConn s sid).connected = true) :
    step RS s (Event.flagParticipant sid targetId) = flagFn RS sid targetId s := by
  show (if (getConn s sid).connected = true then flagFn RS sid targetId s else s) = _
  rw [if_pos hconn]

theorem step_leave_eq {RS : Nat} {s : ServerState} {sid : SocketId}
    (hconn : (getConn s sid).connected = true) :
    step RS s (Event.leaveRoomEv sid) = leaveRoomFn sid none s := by
  show (if (getConn s sid).connected = true then leaveRoomFn sid none s else s) = _
  rw [if_pos hconn]

theorem step_disconnect_eq {RS : Nat} {s : ServerState} {sid : SocketId}
    (hconn : (getConn s sid).connected = true) :
    step RS s (Event.disconnect sid) = disconnectFn sid s := by
  show (if (getConn s sid).connected = true then disconnectFn sid s else s) = _
  rw [if_pos hconn]

theorem step_signal_eq {RS : Nat} {s : ServerState} {sid toId payload : String}
    (hconn : (getConn s sid).connected = true) :
    step RS s (Event.signal sid toId payload) = signalFn sid toId payload s := by
  show (if (getConn s sid).connected = true then signalFn sid toId payload s else s) = _
  rw [if_pos hconn]

theorem flagFn_eq {RS : Nat} {s : ServerState} {sid targetId : SocketId} {rid : RoomId}
    {room : Room}
    (hcur : (getConn s sid).currentRoomID = some rid)
    (hR : alGet rid s.rooms = some room) :
    flagFn RS sid targetId s =
      if threshold RS ≤ (accsAfter sid ((alGet targetId room.flags).getD [])).length then
        flagKick rid targetId { s with rooms := alSet rid (flagRoomRecord sid targetId room) s.rooms }
      else
        { s with rooms := alSet rid (flagRoomRecord sid targetId room) s.rooms } := by
  unfold flagFn
  split
  · rename_i hc
    rw [hcur] at hc
    exact Option.noConfusion hc
  · rename_i rid' hc
    rw [hcur] at hc
    injection hc with hc2
    subst hc2
    split
    · rename_i hr
      rw [hR] at hr
      exact Option.noConfusion hr
    · rename_i room' hr
      rw [hR] at hr
      injection hr with hr2
      subst hr2
      rfl

theorem leaveRoomFn_none_eq {s : ServerState} {sid : SocketId} {rid : RoomId}
    (hcur : (getConn s sid).currentRoomID = some rid) :
    leaveRoomFn sid none s = leaveRoomCore sid rid s := by
  unfold leaveRoomFn
  split
  · rename_i hc
    have hc2 : (getConn s sid).currentRoomID = none := hc
    rw [hcur] at hc2
    exact Option.noConfusion hc2
  · rename_i t hc
    have hc2 : (getConn s sid).currentRoomID = some t := hc
    rw [hcur] at hc2
    injection hc2 with h3
    subst h3
    rfl

theorem leaveRoomUpdate_eq {s : ServerState} {sid : SocketId} {target : RoomId} {room : Room}
    (hR : alGet target s.rooms = some room) :
    leaveRoomUpdate sid target s =
      if (roomAfterLeave sid room).participants.isEmpty then
        { s with rooms := alErase target s.rooms }
      else
        emitRoom
          (emitRoom { s with rooms := alSet target (roomAfterLeave sid room) s.rooms }
            (some target)
            (Msg.roomUpdate (roomAfterLeave sid room).participants.length
              (readyCount (roomAfterLeave sid room))))
          (some target)
          (Msg.participantRemoved sid (roomAfterLeave sid room).participants) := by
  unfold leaveRoomUpdate
  split
  · rename_i h0
    rw [hR] at h0
    exact Option.noConfusion h0
  · rename_i room' h0
    rw [hR] at h0
    injection h0 with h1
    subst h1
    rfl

theorem flagKickCore_eq {rid targetId : String} {s2 : ServerState} {room2 : Room}
    (hR2 : alGet rid s2.rooms = some room2) :
    flagKickCore rid targetId s2 =
      emitRoom { s2 with rooms := alSet rid (flagKickRoom targetId room2) s2.rooms }
        (some rid) (Msg.participantRemoved targetId (flagKickRoom targetId room2).participants) := by
  unfold flagKickCore
  split
  · rename_i h0
    rw [hR2] at h0
    exact Option.noConfusion h0
  · rename_i room2' h0
    rw [hR2] at h0
    injection h0 with h1
    subst h1
    rfl

theorem emitDirect_pos {s : ServerState} {sid : SocketId} (m : Msg)
    (h : (getConn s sid).connected = true) :
    emitDirect s sid m = { s with log := s.log ++ [⟨Dest.direct sid, [sid], m⟩] } := by
  unfold emitDirect
  rw [if_pos h]

theorem emitDirect_neg {s : ServerState} {sid : SocketId} (m : Msg)
    (h : ¬(getConn s sid).connected = true) :
    emitDirect s sid m = s := by
  unfold emitDirect
  rw [if_neg h]

theorem strMem_accsAfter (sid : SocketId) (accs : List SocketId) :
    strMem sid (accsAfter sid accs) = true := by
  unfold accsAfter
  by_cases hc : strMem sid accs = true
  · rw [if_pos hc]
    exact hc
  · rw [if_neg hc]
    rw [strMem_iff]
    simp

theorem not_mem_filter_bne_self (l : List String) (t : String) :
    t ∉ l.filter (fun p => p != t) := by
  intro h
  rw [List.mem_filter] at h
  simp at h

theorem filter_bne_eq_self {l : List String} {t : String} (h : t ∉ l) :
    l.filter (fun p => p != t) = l := by
  rw [List.filter_eq_self]
  intro a ha
  simp only [bne_iff_ne, ne_eq]
  intro heq
  subst heq
  exact h ha

/-! ### Claim theorems -/

/-- Claim C7 (confirmed).  For all event sequences, a connection
identifier appears in at most one room's participants list at any time;
and a `join-queue` from a connection that is already a room member first
performs a full departure from its prior room (its handler equals
matchmaking applied to the departed state, and in that departed state
the joiner is in no room's participants list) before it is matched. -/
theorem c7_room_exclusivity (RS : Nat) (es : List Event) :
    (∀ sid r1 r2 room1 room2,
        alGet r1 (reach RS es).rooms = some room1 →
        alGet r2 (reach RS es).rooms = some room2 →
        sid ∈ room1.participants → sid ∈ room2.participants → r1 = r2) ∧
    (∀ sid now rid,
        (getConn (reach RS es) sid).connected = true →
        (getConn (reach RS es) sid).currentRoomID = some rid →
        step RS (reach RS es) (Event.joinQueue sid now) =
          matchAndJoin RS sid now (leaveRoomFn sid (some rid) (reach RS es)) ∧
        (∀ r room, alGet r (leaveRoomFn sid (some rid) (reach RS es)).rooms = some room →
          sid ∉ room.participants)) := by
  have hInv := reach_inv RS es
  constructor
  · intro sid r1 r2 room1 room2 hg1 hg2 hm1 hm2
    have h1 := hInv.1 r1 room1 sid hg1 hm1
    have h2 := hInv.1 r2 room2 sid hg2 hm2
    rw [h1] at h2
    exact Option.some.inj h2
  · intro sid now rid hconn hcur
    constructor
    · rw [step_joinQueue_eq now hconn]
      unfold joinQueueFn
      rw [hcur]
    · exact leave_not_mem hInv (Or.inr hcur.symm)

/-- Witness for C7: in the concrete state after `tr2`, socket A occupies
`room_1`, and its re-queue factors through a full departure first. -/
theorem c7_witness :
    step 2 (reach 2 tr2) (Event.joinQueue pA 9) =
      matchAndJoin 2 pA 9 (leaveRoomFn pA (some rm1) (reach 2 tr2)) :=
  ((c7_room_exclusivity 2 tr2).2 pA 9 rm1 (by decide) (by decide)).1

/-- Claim C2 (confirmed).  For a room of capacity `RS` in any reachable
state: a flag event from an accuser occupying the room removes a target
participant if and only if the resulting set of distinct accusers
reaches `max(2, floor(RS/2)+1)`; the accuser set stays duplicate-free;
and a repeated flag from an accuser who already flagged the same target
is a complete no-op (the state, hence the count and the membership, is
unchanged). -/
theorem c2_quorum_kick (RS : Nat) (es : List Event) (rid : RoomId)
    (accuser target : SocketId)
    (hconn : (getConn (reach RS es) accuser).connected = true)
    (hcur : (getConn (reach RS es) accuser).currentRoomID = some rid)
    (hroom : (roomAt (reach RS es) rid).isSome = true)
    (hmem : target ∈ participantsAt (reach RS es) rid) :
    (accsAfter accuser (flagsAt (reach RS es) rid target)).Nodup ∧
    (target ∈ participantsAt
        (step RS (reach RS es) (Event.flagParticipant accuser target)) rid
      ↔ (accsAfter accuser (flagsAt (reach RS es) rid target)).length < threshold RS) ∧
    (strMem accuser (flagsAt (reach RS es) rid target) = true →
      step RS (reach RS es) (Event.flagParticipant accuser target) = reach RS es) := by
  have hInv := reach_inv RS es
  cases hrm : roomAt (reach RS es) rid with
  | none =>
    rw [hrm] at hroom
    exact absurd hroom (by simp)
  | some room =>
    have hR : alGet rid (reach RS es).rooms = some room := hrm
    have hpart : participantsAt (reach RS es) rid = room.participants := by
      unfold participantsAt
      rw [hrm]
      rfl
    have hflags : flagsAt (reach RS es) rid target = (alGet target room.flags).getD [] := by
      unfold flagsAt flagsMapAt
      rw [hrm]
      rfl
    rw [hpart] at hmem
    rw [hflags]
    have hnod : ((alGet target room.flags).getD []).Nodup := by
      cases hfe : alGet target room.flags with
      | none => simp
      | some accs0 => simpa using (hInv.2 rid room target accs0 hR hfe).1
    refine ⟨accsAfter_nodup hnod, ?_, ?_⟩
    · -- membership after the event iff below threshold
      rw [step_flag_eq hconn, flagFn_eq hcur hR]
      by_cases hq : threshold RS ≤ (accsAfter accuser ((alGet target room.flags).getD [])).length
      · rw [if_pos hq]
        refine iff_of_false ?_ (Nat.not_lt.2 hq)
        intro hmem'
        have hR2 : alGet rid ({ reach RS es with
            rooms := alSet rid (flagRoomRecord accuser target room) (reach RS es).rooms } : ServerState).rooms =
            some (flagRoomRecord accuser target room) := alGet_alSet_self _ _ _
        have hpw : participantsAt
            (flagKick rid target { reach RS es with
              rooms := alSet rid (flagRoomRecord accuser target room) (reach RS es).rooms }) rid =
            room.participants.filter (fun p => p != target) := by
          unfold participantsAt roomAt
          unfold flagKick
          rw [flagKickCore_eq (by rw [emitDirect_rooms]; exact hR2)]
          rw [emitRoom_rooms]
          have h5 : alGet rid (alSet rid
              (flagKickRoom target (flagRoomRecord accuser target room))
              (emitDirect { reach RS es with
                rooms := alSet rid (flagRoomRecord accuser target room) (reach RS es).rooms }
                target Msg.sessionDissolved).rooms) =
              some (flagKickRoom target (flagRoomRecord accuser target room)) :=
            alGet_alSet_self _ _ _
          rw [h5]
          rfl
        rw [hpw] at hmem'
        exact not_mem_filter_bne_self _ _ hmem'
      · rw [if_neg hq]
        refine iff_of_true ?_ (Nat.lt_of_not_le hq)
        have hpw : participantsAt ({ reach RS es with
            rooms := alSet rid (flagRoomRecord accuser target room) (reach RS es).rooms } : ServerState) rid =
            room.participants := by
          unfold participantsAt roomAt
          rw [alGet_alSet_self]
          rfl
        rw [hpw]
        exact hmem
    · -- repeated flag: complete no-op
      intro hsm
      cases hfe : alGet target room.flags with
      | none =>
        rw [hfe] at hsm
        simp [strMem] at hsm
      | some accs0 =>
        have hsm0 : strMem accuser accs0 = true := by
          rw [hfe] at hsm
          exact hsm
        have hlen := (hInv.2 rid room target accs0 hR hfe).2
        have haa : accsAfter accuser ((alGet target room.flags).getD []) = accs0 := by
          rw [hfe]
          show (if strMem accuser accs0 = true then accs0 else accs0 ++ [accuser]) = accs0
          rw [if_pos hsm0]
        have hrec : flagRoomRecord accuser target room = room := by
          unfold flagRoomRecord
          rw [haa, alSet_self hfe]
        rw [step_flag_eq hconn, flagFn_eq hcur hR, haa, if_neg (Nat.not_le.2 hlen), hrec,
          alSet_self hR]

/-- Witness for C2: in the state after `tr2` (B already flagged A once),
re-applying the same flag leaves the server state unchanged. -/
theorem c2_witness :
    step 2 (reach 2 tr2) (Event.flagParticipant pB pA) = reach 2 tr2 :=
  (c2_quorum_kick 2 tr2 rm1 pB pA (by decide) (by decide) (by decide)
    (by decide)).2.2 (by decide)

theorem alGet_mem {α : Type} {k : String} {v : α} {l : List (String × α)}
    (h : alGet k l = some v) : (k, v) ∈ l := by
  induction l with
  | nil => exact Option.noConfusion h
  | cons p rest ih =>
    obtain ⟨k1, v1⟩ := p
    by_cases h1 : k1 = k
    · subst h1
      rw [alGet] at h
      rw [if_pos rfl] at h
      injection h with h2
      subst h2
      exact List.mem_cons_self _ _
    · rw [alGet] at h
      rw [if_neg h1] at h
      exact List.mem_cons_of_mem _ (ih h)

/-- With one conns entry per socket id, the only entry stored under a
key after an `alSet` on that key is the written value. -/
theorem alSet_key_unique {α : Type} {k : String} {v : α} {l : List (String × α)}
    (hnd : (l.map Prod.fst).Nodup) {w : α} (hmem : (k, w) ∈ alSet k v l) : w = v := by
  induction l with
  | nil =>
    have h := List.mem_singleton.mp hmem
    exact (Prod.ext_iff.mp h).2
  | cons p rest ih =>
    obtain ⟨k1, v1⟩ := p
    rw [List.map_cons, List.nodup_cons] at hnd
    by_cases h1 : k1 = k
    · subst h1
      rw [alSet] at hmem
      rw [if_pos rfl] at hmem
      rcases List.mem_cons.mp hmem with h | h
      · exact (Prod.ext_iff.mp h).2
      · exact absurd (List.mem_map.mpr ⟨(k1, w), h, rfl⟩) hnd.1
    · rw [alSet] at hmem
      rw [if_neg h1] at hmem
      rcases List.mem_cons.mp hmem with h | h
      · exact absurd ((Prod.ext_iff.mp h).1).symm h1
      · exact ih hnd.2 h

/-- Every recipient of a room emit is backed by a connected conns
entry. -/
theorem roomRecipients_mem_conn {s : ServerState} {target x : String}
    (h : x ∈ roomRecipients s target) :
    ∃ c, (x, c) ∈ s.conns ∧ c.connected = true := by
  unfold roomRecipients at h
  rw [List.mem_map] at h
  obtain ⟨p, hp, hpx⟩ := h
  rw [List.mem_filter] at hp
  obtain ⟨hmem, hcond⟩ := hp
  rw [Bool.and_eq_true] at hcond
  refine ⟨p.2, ?_, hcond.1⟩
  rw [← hpx]
  exact hmem

theorem participantsAt_set {s : ServerState} {rid : RoomId} {room1 : Room} :
    participantsAt { s with rooms := alSet rid room1 s.rooms } rid = room1.participants := by
  unfold participantsAt roomAt
  show ((alGet rid (alSet rid room1 s.rooms)).map Room.participants).getD [] = _
  rw [alGet_alSet_self]
  rfl

theorem flagsAt_set {s : ServerState} {rid : RoomId} {room1 : Room} (target : SocketId) :
    flagsAt { s with rooms := alSet rid room1 s.rooms } rid target =
      (alGet target room1.flags).getD [] := by
  unfold flagsAt flagsMapAt roomAt
  show (alGet target (((alGet rid (alSet rid room1 s.rooms)).map Room.flags).getD [])).getD [] = _
  rw [alGet_alSet_self]
  rfl

theorem flagKick_roomAt {rid targetId : String} {s1 : ServerState} {room2 : Room}
    (hR2 : alGet rid s1.rooms = some room2) :
    roomAt (flagKick rid targetId s1) rid = some (flagKickRoom targetId room2) := by
  unfold roomAt flagKick
  rw [flagKickCore_eq (by rw [emitDirect_rooms]; exact hR2)]
  rw [emitRoom_rooms]
  show alGet rid (alSet rid (flagKickRoom targetId room2)
      (emitDirect s1 targetId Msg.sessionDissolved).rooms) = _
  exact alGet_alSet_self _ _ _

theorem flagKick_participantsAt {rid targetId : String} {s1 : ServerState} {room2 : Room}
    (hR2 : alGet rid s1.rooms = some room2) :
    participantsAt (flagKick rid targetId s1) rid =
      room2.participants.filter (fun p => p != targetId) := by
  unfold participantsAt
  rw [flagKick_roomAt hR2]
  rfl

/-- Claim C10 (confirmed).  The flag-participant operation performs no
membership check on its target: an accuser occupying a room adds itself
to `flags[target]` for any target — a non-participant or its own id
alike; and when such a non-participant target reaches the threshold,
the handler still emits `participant-removed{peerId: target, newPeers}`
to the room with the participant list unchanged (after a direct
`session-dissolved` to the target's connection if it is live). -/
theorem c10_flag_no_membership_check (RS : Nat) (es : List Event) (rid : RoomId)
    (accuser target : SocketId) (room : Room)
    (hconn : (getConn (reach RS es) accuser).connected = true)
    (hcur : (getConn (reach RS es) accuser).currentRoomID = some rid)
    (hrm : roomAt (reach RS es) rid = some room)
    (hnm : target ∉ room.participants) :
    strMem accuser (accsAfter accuser ((alGet target room.flags).getD [])) = true ∧
    (¬threshold RS ≤ (accsAfter accuser ((alGet target room.flags).getD [])).length →
      flagsAt (step RS (reach RS es) (Event.flagParticipant accuser target)) rid target =
        accsAfter accuser ((alGet target room.flags).getD [])) ∧
    (threshold RS ≤ (accsAfter accuser ((alGet target room.flags).getD [])).length →
      participantsAt (step RS (reach RS es) (Event.flagParticipant accuser target)) rid =
        room.participants ∧
      (step RS (reach RS es) (Event.flagParticipant accuser target)).log =
        (reach RS es).log ++
          (if (getConn (reach RS es) target).connected = true then
            [⟨Dest.direct target, [target], Msg.sessionDissolved⟩] else []) ++
          [⟨Dest.room (some rid), roomRecipients (reach RS es) rid,
            Msg.participantRemoved target room.participants⟩]) := by
  have hR : alGet rid (reach RS es).rooms = some room := hrm
  refine ⟨strMem_accsAfter _ _, ?_, ?_⟩
  · intro hq
    rw [step_flag_eq hconn, flagFn_eq hcur hR, if_neg hq]
    rw [flagsAt_set target]
    show (alGet target (alSet target (accsAfter accuser ((alGet target room.flags).getD []))
        room.flags)).getD [] = _
    rw [alGet_alSet_self]
    rfl
  · intro hq
    rw [step_flag_eq hconn, flagFn_eq hcur hR, if_pos hq]
    have hR2 : alGet rid ({ reach RS es with
        rooms := alSet rid (flagRoomRecord accuser target room) (reach RS es).rooms } : ServerState).rooms =
        some (flagRoomRecord accuser target room) := alGet_alSet_self _ _ _
    constructor
    · rw [flagKick_participantsAt hR2]
      exact filter_bne_eq_self hnm
    · by_cases htc : (getConn (reach RS es) target).connected = true
      · rw [if_pos htc]
        unfold flagKick
        have htc1 : (getConn ({ reach RS es with
            rooms := alSet rid (flagRoomRecord accuser target room) (reach RS es).rooms } : ServerState)
            target).connected = true := htc
        rw [emitDirect_pos Msg.sessionDissolved htc1]
        have hR3 : alGet rid ({ ({ reach RS es with
            rooms := alSet rid (flagRoomRecord accuser target room) (reach RS es).rooms } : ServerState) with
            log := ({ reach RS es with
              rooms := alSet rid (flagRoomRecord accuser target room) (reach RS es).rooms } : ServerState).log ++
              [⟨Dest.direct target, [target], Msg.sessionDissolved⟩] } : ServerState).rooms =
            some (flagRoomRecord accuser target room) := hR2
        rw [flagKickCore_eq hR3]
        rw [← filter_bne_eq_self hnm]
        rfl
      · rw [if_neg htc]
        unfold flagKick
        have htc1 : ¬(getConn ({ reach RS es with
            rooms := alSet rid (flagRoomRecord accuser target room) (reach RS es).rooms } : ServerState)
            target).connected = true := htc
        rw [emitDirect_neg Msg.sessionDissolved htc1]
        rw [flagKickCore_eq hR2]
        rw [List.append_nil]
        rw [← filter_bne_eq_self hnm]
        rfl

/-- Witness for C10: in the state after `tr10` (A already flagged the
non-member id Z), a second flag from B reaches the threshold and the
broadcast goes out while the participant list is untouched. -/
theorem c10_witness :
    participantsAt (step 2 (reach 2 tr10) (Event.flagParticipant pB pZ)) rm1 = [pA, pB] := by
  have h := (c10_flag_no_membership_check 2 tr10 rm1 pB pZ
    ⟨[pA, pB], [(pA, false), (pB, false)], [(pZ, [pA])]⟩
    (by decide) (by decide) (by decide) (by decide)).2.2 (by decide)
  rw [h.1]

/-- Claim C6 amended (corrected).  An explicit leave or disconnect of a
room member removes it from `participants` and deletes its
`readyStates` entry, but leaves `flags` entries keyed by it as target
in place; if the room then has zero participants it is deleted.  On an
explicit leave the `room-update` and `participant-removed` broadcasts
are emitted to the room channel, which at emission time still includes
the departing socket (it leaves the channel only afterwards).  A
disconnect performs the same room mutations and emits the same two
messages, but socket.io removes the closing socket from every channel
and marks it disconnected before the `disconnect` handler runs, so the
disconnect-path broadcasts are resolved against that cleaned-up state
and (with one conns entry per socket id) never reach the departing
socket.  A moderation removal additionally deletes the target's
`flags` entry but emits only `participant-removed` (no `room-update`
snapshot), preceded by the direct `session-dissolved` to the target
when it is connected. -/
theorem c6_departure_bookkeeping (RS : Nat) (s : ServerState) (sid : SocketId)
    (rid : RoomId) (room : Room)
    (hconn : (getConn s sid).connected = true)
    (hcur : (getConn s sid).currentRoomID = some rid)
    (hrm : roomAt s rid = some room) :
    ((roomAfterLeave sid room).participants.isEmpty = true →
      roomAt (step RS s (Event.leaveRoomEv sid)) rid = none) ∧
    ((roomAfterLeave sid room).participants.isEmpty = false →
      roomAt (step RS s (Event.leaveRoomEv sid)) rid = some (roomAfterLeave sid room) ∧
      (roomAfterLeave sid room).flags = room.flags ∧
      (step RS s (Event.leaveRoomEv sid)).log =
        s.log ++
          [⟨Dest.room (some rid), roomRecipients s rid,
            Msg.roomUpdate (roomAfterLeave sid room).participants.length
              (readyCount (roomAfterLeave sid room))⟩] ++
          [⟨Dest.room (some rid), roomRecipients s rid,
            Msg.participantRemoved sid (roomAfterLeave sid room).participants⟩] ∧
      (strMem rid (getConn s sid).joined = true → sid ∈ roomRecipients s rid)) ∧
    ((step RS s (Event.disconnect sid)).rooms = (step RS s (Event.leaveRoomEv sid)).rooms ∧
     ((roomAfterLeave sid room).participants.isEmpty = false →
       (step RS s (Event.disconnect sid)).log =
         s.log ++
           [⟨Dest.room (some rid), roomRecipients (disconnSelf sid s) rid,
             Msg.roomUpdate (roomAfterLeave sid room).participants.length
               (readyCount (roomAfterLeave sid room))⟩] ++
           [⟨Dest.room (some rid), roomRecipients (disconnSelf sid s) rid,
             Msg.participantRemoved sid (roomAfterLeave sid room).participants⟩]) ∧
     ((s.conns.map Prod.fst).Nodup → sid ∉ roomRecipients (disconnSelf sid s) rid)) ∧
    (∀ accuser target,
      (getConn s accuser).connected = true →
      (getConn s accuser).currentRoomID = some rid →
      threshold RS ≤ (accsAfter accuser ((alGet target room.flags).getD [])).length →
      alGet target (flagsMapAt (step RS s (Event.flagParticipant accuser target)) rid) = none ∧
      (step RS s (Event.flagParticipant accuser target)).log =
        s.log ++
          (if (getConn s target).connected = true then
            [⟨Dest.direct target, [target], Msg.sessionDissolved⟩] else []) ++
          [⟨Dest.room (some rid), roomRecipients s rid,
            Msg.participantRemoved target
              (room.participants.filter (fun p => p != target))⟩]) := by
  have hR : alGet rid s.rooms = some room := hrm
  refine ⟨?_, ?_, ?_, ?_⟩
  · intro hE
    rw [step_leave_eq hconn, leaveRoomFn_none_eq hcur]
    show roomAt (leaveRoomUpdate sid rid s) rid = none
    unfold roomAt
    rw [leaveRoomUpdate_eq hR, if_pos hE]
    show alGet rid (alErase rid s.rooms) = none
    exact alGet_alErase_self _ _
  · intro hE
    have hEn : ¬(roomAfterLeave sid room).participants.isEmpty = true := by
      rw [hE]
      simp
    rw [step_leave_eq hconn, leaveRoomFn_none_eq hcur]
    refine ⟨?_, rfl, ?_, ?_⟩
    · show roomAt (leaveRoomUpdate sid rid s) rid = some (roomAfterLeave sid room)
      unfold roomAt
      rw [leaveRoomUpdate_eq hR, if_neg hEn]
      rw [emitRoom_rooms, emitRoom_rooms]
      show alGet rid (alSet rid (roomAfterLeave sid room) s.rooms) = _
      exact alGet_alSet_self _ _ _
    · show (leaveRoomUpdate sid rid s).log = _
      rw [leaveRoomUpdate_eq hR, if_neg hEn]
      rfl
    · intro hj
      cases halc : alGet sid s.conns with
      | none =>
        have hcf : (getConn s sid).connected = false := by
          unfold getConn
          rw [halc]
          rfl
        rw [hcf] at hconn
        exact Bool.noConfusion hconn
      | some c =>
        have hgc : getConn s sid = c := by
          unfold getConn
          rw [halc]
          rfl
        unfold roomRecipients
        rw [List.mem_map]
        refine ⟨(sid, c), ?_, rfl⟩
        rw [List.mem_filter]
        refine ⟨alGet_mem halc, ?_⟩
        rw [hgc] at hconn hj
        simp [hconn, hj]
  · have hcur1 : (getConn (disconnSelf sid s) sid).currentRoomID = some rid := by
      unfold disconnSelf
      rw [getConn_setConn_self]
      exact hcur
    have hR1 : alGet rid (disconnSelf sid s).rooms = some room := hR
    refine ⟨?_, ?_, ?_⟩
    · rw [step_disconnect_eq hconn, step_leave_eq hconn]
      show (leaveRoomFn sid none (disconnSelf sid s)).rooms = (leaveRoomFn sid none s).rooms
      rw [leaveRoomFn_none_eq hcur1, leaveRoomFn_none_eq hcur]
      show (leaveRoomUpdate sid rid (disconnSelf sid s)).rooms =
        (leaveRoomUpdate sid rid s).rooms
      rw [leaveRoomUpdate_eq hR1, leaveRoomUpdate_eq hR]
      by_cases hE : (roomAfterLeave sid room).participants.isEmpty = true
      · rw [if_pos hE, if_pos hE]
        rfl
      · rw [if_neg hE, if_neg hE]
        simp only [emitRoom_rooms]
        rfl
    · intro hE
      have hEn : ¬(roomAfterLeave sid room).participants.isEmpty = true := by
        rw [hE]
        simp
      rw [step_disconnect_eq hconn]
      show (leaveRoomFn sid none (disconnSelf sid s)).log = _
      rw [leaveRoomFn_none_eq hcur1]
      show (leaveRoomUpdate sid rid (disconnSelf sid s)).log = _
      rw [leaveRoomUpdate_eq hR1, if_neg hEn]
      rfl
    · intro hnd hmem2
      obtain ⟨c, hcmem, hcconn⟩ := roomRecipients_mem_conn hmem2
      have hcmem1 : (sid, c) ∈
          alSet sid ({ getConn s sid with connected := false, joined := [] } : Conn) s.conns :=
        hcmem
      have hce := alSet_key_unique hnd hcmem1
      rw [hce] at hcconn
      exact Bool.noConfusion hcconn
  · intro accuser target haconn hacur hq
    rw [step_flag_eq haconn, flagFn_eq hacur hR, if_pos hq]
    have hR2 : alGet rid ({ s with
        rooms := alSet rid (flagRoomRecord accuser target room) s.rooms } : ServerState).rooms =
        some (flagRoomRecord accuser target room) := alGet_alSet_self _ _ _
    constructor
    · unfold flagsMapAt
      rw [flagKick_roomAt hR2]
      show alGet target (alErase target (flagRoomRecord accuser target room).flags) = none
      exact alGet_alErase_self _ _
    · by_cases htc : (getConn s target).connected = true
      · rw [if_pos htc]
        unfold flagKick
        have htc1 : (getConn ({ s with
            rooms := alSet rid (flagRoomRecord accuser target room) s.rooms } : ServerState)
            target).connected = true := htc
        rw [emitDirect_pos Msg.sessionDissolved htc1]
        have hR3 : alGet rid ({ ({ s with
            rooms := alSet rid (flagRoomRecord accuser target room) s.rooms } : ServerState) with
            log := ({ s with
              rooms := alSet rid (flagRoomRecord accuser target room) s.rooms } : ServerState).log ++
              [⟨Dest.direct target, [target], Msg.sessionDissolved⟩] } : ServerState).rooms =
            some (flagRoomRecord accuser target room) := hR2
        rw [flagKickCore_eq hR3]
        rfl
      · rw [if_neg htc]
        unfold flagKick
        have htc1 : ¬(getConn ({ s with
            rooms := alSet rid (flagRoomRecord accuser target room) s.rooms } : ServerState)
            target).connected = true := htc
        rw [emitDirect_neg Msg.sessionDissolved htc1]
        rw [flagKickCore_eq hR2]
        rw [List.append_nil]
        rfl

/-- Witness for C6: in the state after `tr2` (room `room_1` holds A and
B, and B has flagged A), A's explicit leave keeps the flags entry keyed
by A while removing A from the participants and readyStates. -/
theorem c6_witness :
    roomAt (step 2 (reach 2 tr2) (Event.leaveRoomEv pA)) rm1 =
      some ⟨[pB], [(pB, false)], [(pA, [pB])]⟩ := by
  have h := (c6_departure_bookkeeping 2 (reach 2 tr2) pA rm1
    ⟨[pA, pB], [(pA, false), (pB, false)], [(pA, [pB])]⟩
    (by decide) (by decide) (by decide)).2.1 (by decide)
  rw [h.1]
  decide

/-- Claim C8 amended (corrected).  A signal event appends exactly one
relayed event to the log — from-field set to the sender, payload
unchanged, nothing else in the state touched (no error to the sender
even when nobody receives it) — and its recipients are precisely the
connected sockets whose socket.io membership matches `to`: the socket
whose own id is `to` (the personal room), plus every socket that has
joined a room named `to`. -/
theorem c8_signal_relay (RS : Nat) (s : ServerState) (sid toId payload : String)
    (hconn : (getConn s sid).connected = true) :
    step RS s (Event.signal sid toId payload) =
      { s with log := s.log ++
        [⟨Dest.room (some toId), roomRecipients s toId, Msg.signalMsg sid payload⟩] } ∧
    ∀ x, x ∈ roomRecipients s toId ↔
      ∃ c, (x, c) ∈ s.conns ∧ c.connected = true ∧ (x = toId ∨ toId ∈ c.joined) := by
  constructor
  · rw [step_signal_eq hconn]
    rfl
  · intro x
    unfold roomRecipients
    rw [List.mem_map]
    constructor
    · rintro ⟨p, hp, hpx⟩
      rw [List.mem_filter] at hp
      obtain ⟨hmem, hcond⟩ := hp
      rw [Bool.and_eq_true, Bool.or_eq_true, beq_iff_eq] at hcond
      refine ⟨p.2, ?_, hcond.1, ?_⟩
      · rw [← hpx]
        simpa using hmem
      · rcases hcond.2 with h1 | h1
        · left
          rw [← hpx]
          exact h1
        · right
          exact strMem_iff.mp h1
    · rintro ⟨c, hmem, hcn, hor⟩
      refine ⟨(x, c), ?_, rfl⟩
      rw [List.mem_filter]
      refine ⟨hmem, ?_⟩
      rw [Bool.and_eq_true, Bool.or_eq_true, beq_iff_eq]
      refine ⟨hcn, ?_⟩
      rcases hor with h1 | h1
      · exact Or.inl h1
      · exact Or.inr (strMem_iff.mpr h1)

/-- Witness for C8: a concrete relay in the state after `tr2`, addressed
to B's personal room, appends exactly the relayed event. -/
theorem c8_witness :
    (step 2 (reach 2 tr2) (Event.signal pA pB pl1)).log =
      (reach 2 tr2).log ++
        [⟨Dest.room (some pB), roomRecipients (reach 2 tr2) pB, Msg.signalMsg pA pl1⟩] := by
  rw [(c8_signal_relay 2 (reach 2 tr2) pA pB pl1 (by decide)).1]

end Talk
